import Mathlib

/-!
Shallow embedding of the Kinema curve-fitting backend and frontend evaluator.

Numeric values are modelled exactly: a JavaScript number is either a finite
value (represented as a rational, `JsVal.num`), `NaN`, `Infinity` or
`-Infinity`.  The transcendental platform primitives `Math.log`, `Math.exp`
and `Math.pow` are external to the repository; they are passed as explicit
function parameters, and theorems that depend on their behaviour assume
exactly the properties those primitives have (finiteness on positive inputs,
monotonicity of the logarithm).  The `regression` npm package is likewise
external: each family fit is represented by its outcome, an optional
`FitRes` (`none` models a thrown exception or falsy result).
-/

namespace Kinema

/-- Model of a JavaScript number: a finite value, NaN, or a signed infinity. -/
inductive JsVal where
  | num (q : ℚ)
  | nan
  | inf
  | ninf
deriving DecidableEq, Repr

/-- Model of the JavaScript global isNaN on numbers. -/
def jsIsNaN : JsVal → Bool
  | .nan => true
  | _ => false

/-- Model of Number.isFinite / isFinite on numbers. -/
def jsIsFinite : JsVal → Bool
  | .num _ => true
  | _ => false

/-- IEEE-754 addition on the embedded number type. -/
def jsAdd : JsVal → JsVal → JsVal
  | .nan, _ => .nan
  | _, .nan => .nan
  | .num a, .num b => .num (a + b)
  | .inf, .ninf => .nan
  | .ninf, .inf => .nan
  | .inf, _ => .inf
  | _, .inf => .inf
  | .ninf, _ => .ninf
  | _, .ninf => .ninf

/-- IEEE-754 subtraction on the embedded number type. -/
def jsSub : JsVal → JsVal → JsVal
  | .nan, _ => .nan
  | _, .nan => .nan
  | .num a, .num b => .num (a - b)
  | .inf, .inf => .nan
  | .inf, _ => .inf
  | .ninf, .ninf => .nan
  | .ninf, _ => .ninf
  | .num _, .inf => .ninf
  | .num _, .ninf => .inf

/-- IEEE-754 multiplication on the embedded number type. -/
def jsMul : JsVal → JsVal → JsVal
  | .nan, _ => .nan
  | _, .nan => .nan
  | .num a, .num b => .num (a * b)
  | .num a, .inf => if 0 < a then .inf else if a < 0 then .ninf else .nan
  | .num a, .ninf => if 0 < a then .ninf else if a < 0 then .inf else .nan
  | .inf, .num b => if 0 < b then .inf else if b < 0 then .ninf else .nan
  | .ninf, .num b => if 0 < b then .ninf else if b < 0 then .inf else .nan
  | .inf, .inf => .inf
  | .inf, .ninf => .ninf
  | .ninf, .inf => .ninf
  | .ninf, .ninf => .inf

/-- Model of Math.abs. -/
def jsAbs : JsVal → JsVal
  | .num a => .num |a|
  | .nan => .nan
  | .inf => .inf
  | .ninf => .inf

/-- JavaScript comparison v < c against a finite constant (false on NaN). -/
def jsLtQ (v : JsVal) (c : ℚ) : Bool :=
  match v with
  | .num a => a < c
  | .nan => false
  | .inf => false
  | .ninf => true

/-- JavaScript comparison v > c against a finite constant (false on NaN). -/
def jsGtQ (v : JsVal) (c : ℚ) : Bool :=
  match v with
  | .num a => c < a
  | .nan => false
  | .inf => true
  | .ninf => false

/-- JavaScript comparison v <= c against a finite constant (false on NaN). -/
def jsLeQ (v : JsVal) (c : ℚ) : Bool :=
  match v with
  | .num a => a ≤ c
  | .nan => false
  | .inf => false
  | .ninf => true

/-- JavaScript comparison v >= c against a finite constant (false on NaN). -/
def jsGeQ (v : JsVal) (c : ℚ) : Bool :=
  match v with
  | .num a => c ≤ a
  | .nan => false
  | .inf => true
  | .ninf => false

/-- JavaScript comparison a < b between two numbers (false whenever NaN). -/
def jsLt : JsVal → JsVal → Bool
  | .num a, .num b => a < b
  | .nan, _ => false
  | _, .nan => false
  | .inf, _ => false
  | .ninf, .ninf => false
  | .ninf, _ => true
  | .num _, .inf => true
  | .num _, .ninf => false

/-- JavaScript ToNumber coercion of a possibly-null value: null becomes 0. -/
def jsCoerceNull (o : Option JsVal) : JsVal :=
  o.getD (.num 0)

/-- Model of Math.log.  The parameter logf gives the (external, platform)
value of the natural logarithm at positive finite arguments; the fixed
IEEE-mandated cases (log 0 = -Infinity, log of a negative is NaN,
log Infinity = Infinity) are built in. -/
def jsLog (logf : ℚ → JsVal) : JsVal → JsVal
  | .num q => if 0 < q then logf q else if q = 0 then .ninf else .nan
  | .inf => .inf
  | .ninf => .nan
  | .nan => .nan

/-- Model of Math.exp.  The parameter expf gives the external value of the
exponential at finite arguments; exp(-Infinity) = 0, exp(Infinity) = Infinity,
exp(NaN) = NaN are built in. -/
def jsExpV (expf : ℚ → JsVal) : JsVal → JsVal
  | .num q => expf q
  | .inf => .inf
  | .ninf => .num 0
  | .nan => .nan

/-- Embedding of calculateAIC from src/backend/utils/aic.utils.js (lines
8-35): null/NaN/negative r2 yields null; near-perfect fits (r2 >= 0.99999)
get the fixed score -500 + 10k; very poor fits (r2 <= 0.00001) get
1000 + 10k; otherwise n * ln(1 - r2) + 2k, falling back to the near-perfect
score when the log term is not finite. -/
def calculateAIC (logf : ℚ → JsVal) (n k : ℚ) (r2 : Option JsVal) : Option JsVal :=
  match r2 with
  | none => none
  | some v =>
    if jsIsNaN v || jsLtQ v 0 then none
    else if jsGeQ v (99999/100000) then some (.num (-500 + k * 10))
    else if jsLeQ v (1/100000) then some (.num (1000 + k * 10))
    else
      -- const logTerm = Math.log(1 - r2); if (!isFinite(logTerm)) fall back
      match jsLog logf (jsSub (.num 1) v) with
      | .num t => some (.num (n * t + 2 * k))
      | _ => some (.num (-500 + k * 10))

/-- Outcome object of one family fit from the external regression library
(the fields used by the service: r2, equation = coefficient array, string). -/
structure FitRes where
  r2 : Option JsVal
  equation : List JsVal
  str : String
deriving DecidableEq, Repr

/-- One element of the results array pushed by runRegressionAnalysis
(src/unnamed/part_002, lines 34-40). -/
structure Entry where
  model : String
  equation : String
  r2 : JsVal
  aic : Option JsVal
  coefficients : List JsVal
deriving DecidableEq, Repr

/-- Return value of runRegressionAnalysis (src/unnamed/part_002, lines 66-69). -/
structure Selection where
  bestModel : Entry
  allModels : List Entry
deriving DecidableEq, Repr

/-- Family names in the fixed attempt order of the models array
(src/unnamed/part_002, lines 8-20). -/
def modelNames : List String :=
  ["Linear", "Quadratic", "Cubic", "Quartic", "Exponential", "Logarithmic", "Power"]

/-- Message of the error thrown when no model survives the validity filter. -/
def noValidModelMsg : String := "No valid regression models found"

/-- Validity guard on r2 applied before a result is pushed
(src/unnamed/part_002, lines 26-28): non-null, non-NaN, non-negative. -/
def validR2 : Option JsVal → Bool
  | none => false
  | some v => !(jsIsNaN v) && !(jsLtQ v 0)

/-- Filter predicate of validResults (src/unnamed/part_002, lines 46-48):
aic non-null, non-NaN and finite. -/
def validAic : Option JsVal → Bool
  | none => false
  | some v => !(jsIsNaN v) && jsIsFinite v

/-- Body of the models.forEach loop (src/unnamed/part_002, lines 22-44): a
fit outcome is appended to the accumulated results unless the fit threw
(outcome none) or its r2 fails the validity guard. -/
def pushModel (logf : ℚ → JsVal) (n : ℚ) (acc : List Entry)
    (p : String × Option FitRes) : List Entry :=
  match p.2 with
  | none => acc
  | some res =>
    match res.r2 with
    | none => acc
    | some v =>
      if jsIsNaN v || jsLtQ v 0 then acc
      else
        acc ++ [{ model := p.1
                  equation := res.str
                  r2 := v
                  aic := calculateAIC logf n res.equation.length res.r2
                  coefficients := res.equation }]

/-- The results array produced by iterating the models list. -/
def buildResults (logf : ℚ → JsVal) (n : ℚ)
    (models : List (String × Option FitRes)) : List Entry :=
  models.foldl (pushModel logf n) []

/-- One step of the best-model scan (src/unnamed/part_002, lines 56-64):
a decisive r2 improvement (more than 0.05) always wins; within the 0.05
band the lower aic wins; otherwise the current best is kept. -/
def selStep (best cur : Entry) : Entry :=
  if jsGtQ (jsSub cur.r2 best.r2) (1/20) then cur
  else if jsLeQ (jsAbs (jsSub cur.r2 best.r2)) (1/20) then
    if jsLt (jsCoerceNull cur.aic) (jsCoerceNull best.aic) then cur else best
  else best

/-- The scan of src/unnamed/part_002, lines 54-64: start from the first
valid result and fold the step over the whole pool (the loop revisits the
first element, which is a no-op). -/
def selectBest : List Entry → Option Entry
  | [] => none
  | h :: t => some ((h :: t).foldl selStep h)

/-- Embedding of runRegressionAnalysis (src/unnamed/part_002).  The data
list supplies n; the external regression library is represented by the list
of per-family outcomes, zipped against the fixed family names. -/
def runRegressionAnalysis (logf : ℚ → JsVal) (data : List (ℚ × ℚ))
    (outcomes : List (Option FitRes)) : Except String Selection :=
  let results := buildResults logf (data.length : ℚ) (modelNames.zip outcomes)
  let validResults := results.filter (fun r => validAic r.aic)
  match selectBest validResults with
  | none => Except.error noValidModelMsg
  | some best => Except.ok { bestModel := best, allModels := results }

/-- Embedding of evaluatePolynomial (src/unnamed/part_000, lines 448-452):
reduce over the coefficient array, coefficient i scaling x^(length-1-i). -/
def evaluatePolynomial (coeffs : List JsVal) (x : ℚ) : JsVal :=
  (coeffs.enum).foldl
    (fun sum p => jsAdd sum (jsMul p.2 (JsVal.num (x ^ (coeffs.length - 1 - p.1)))))
    (JsVal.num 0)

/-- Embedding of evaluateExponential (src/unnamed/part_000, lines 454-460):
missing/short/NaN coefficients yield the number 0, otherwise
coefficients[0] * exp(coefficients[1] * x). -/
def evaluateExponential (expf : ℚ → JsVal) (coeffs : Option (List JsVal))
    (x : ℚ) : JsVal :=
  match coeffs with
  | none => .num 0
  | some cs =>
    if cs.length < 2 then .num 0
    else
      let a := cs.getD 0 .nan
      let b := cs.getD 1 .nan
      if jsIsNaN a || jsIsNaN b then .num 0
      else jsMul a (jsExpV expf (jsMul b (.num x)))

/-- Embedding of evaluateLogarithmic (src/unnamed/part_000, lines 462-469).
Note the source reads b from coefficients[0] and a from coefficients[1] and
returns a + b * Math.log(x). -/
def evaluateLogarithmic (logf : ℚ → JsVal) (coeffs : Option (List JsVal))
    (x : ℚ) : Option JsVal :=
  match coeffs with
  | none => none
  | some cs =>
    if cs.length < 2 then none
    else if x ≤ 0 then none
    else
      let b := cs.getD 0 .nan
      let a := cs.getD 1 .nan
      if jsIsNaN a || jsIsNaN b then none
      else some (jsAdd a (jsMul b (jsLog logf (.num x))))

/-- Embedding of evaluatePower (src/unnamed/part_000, lines 471-479):
a * Math.pow(x, b) with a = coefficients[0], b = coefficients[1];
null for short coefficients, x <= 0, or NaN coefficients. -/
def evaluatePower (powf : ℚ → JsVal → JsVal) (coeffs : Option (List JsVal))
    (x : ℚ) : Option JsVal :=
  match coeffs with
  | none => none
  | some cs =>
    if cs.length < 2 then none
    else if x ≤ 0 then none
    else
      let a := cs.getD 0 .nan
      let b := cs.getD 1 .nan
      if jsIsNaN a || jsIsNaN b then none
      else some (jsMul a (powf x b))

/-- One element of the array returned by calculateResiduals: the source
builds plain objects with an x and a numeric residual field. -/
structure Residual where
  x : ℚ
  residual : JsVal
deriving DecidableEq, Repr

/-- The switch on bestModel.model inside calculateResiduals
(src/unnamed/part_000, lines 484-502); the default branch predicts 0. -/
def predictAt (logf expf : ℚ → JsVal) (powf : ℚ → JsVal → JsVal)
    (bm : Entry) (x : ℚ) : Option JsVal :=
  match bm.model with
  | "Linear" | "Quadratic" | "Cubic" | "Quartic" =>
      some (evaluatePolynomial bm.coefficients x)
  | "Exponential" => some (evaluateExponential expf (some bm.coefficients) x)
  | "Logarithmic" => evaluateLogarithmic logf (some bm.coefficients) x
  | "Power" => evaluatePower powf (some bm.coefficients) x
  | _ => some (.num 0)

/-- Embedding of calculateResiduals (src/unnamed/part_000, lines 481-505):
map over the data, each point yielding x together with y - predicted, where
a null prediction is coerced to 0 by the JavaScript subtraction. -/
def calculateResiduals (logf expf : ℚ → JsVal) (powf : ℚ → JsVal → JsVal)
    (data : List (ℚ × ℚ)) (bm : Entry) : List Residual :=
  data.map (fun p =>
    { x := p.1
      residual := jsSub (.num p.2) (jsCoerceNull (predictAt logf expf powf bm p.1)) })

/-- Payload of an HTTP JSON response of the analysis route. -/
inductive RespPayload where
  | errMsg (error : String)
  | result (sel : Selection)
deriving DecidableEq, Repr

/-- HTTP response model: a status code and a JSON payload. -/
structure Resp where
  status : ℕ
  payload : RespPayload
deriving DecidableEq, Repr

/-- Message of the 400 response for an invalid request body. -/
def minPointsMsg : String := "At least two data points are required"

/-- Message of the 500 response when the analysis throws. -/
def analysisFailedMsg : String := "Regression analysis failed"

/-- Embedding of the POST handler in src/backend/routes/analysis.routes.js
(lines 6-24): body none models data that is not an array; otherwise fewer
than two points is rejected with 400 before the analysis function is ever
invoked; an analysis error becomes a 500. -/
def handleAnalyze (analyze : List (ℚ × ℚ) → Except String Selection)
    (body : Option (List (ℚ × ℚ))) : Resp :=
  match body with
  | none => { status := 400, payload := .errMsg minPointsMsg }
  | some data =>
    if data.length < 2 then { status := 400, payload := .errMsg minPointsMsg }
    else
      match analyze data with
      | .ok r => { status := 200, payload := .result r }
      | .error _ => { status := 500, payload := .errMsg analysisFailedMsg }

/-! ### Basic facts about the selection scan -/

/-- JavaScript strict less-than is irreflexive (false on NaN as well). -/
lemma jsLt_irrefl (v : JsVal) : jsLt v v = false := by
  cases v <;> simp [jsLt]

/-- Scanning a candidate against itself keeps the current best. -/
lemma selStep_self (b : Entry) : selStep b b = b := by
  unfold selStep
  cases hb : b.r2 <;>
    simp [jsSub, jsGtQ, jsLeQ, jsAbs, jsLt_irrefl]

/-- Each scan step returns either the current best or the new candidate. -/
lemma selStep_or (b c : Entry) : selStep b c = b ∨ selStep b c = c := by
  unfold selStep
  split
  · exact Or.inr rfl
  · split
    · split
      · exact Or.inr rfl
      · exact Or.inl rfl
    · exact Or.inl rfl

/-- The fold of the scan step lands on the seed or on a list element. -/
lemma foldl_selStep_mem :
    ∀ (t : List Entry) (b : Entry), t.foldl selStep b = b ∨ t.foldl selStep b ∈ t
  | [], _ => Or.inl rfl
  | c :: t, b => by
    rcases foldl_selStep_mem t (selStep b c) with h | h
    · rcases selStep_or b c with h2 | h2
      · exact Or.inl (by rw [List.foldl_cons, h, h2])
      · refine Or.inr ?_
        rw [List.foldl_cons, h, h2]
        exact List.mem_cons_self _ _
    · exact Or.inr (List.mem_cons_of_mem _ (by rw [List.foldl_cons]; exact h))

/-- The selected best model is a member of the candidate pool. -/
lemma selectBest_mem {pool : List Entry} {best : Entry}
    (h : selectBest pool = some best) : best ∈ pool := by
  cases pool with
  | nil => simp [selectBest] at h
  | cons a t =>
    have hb : best = (a :: t).foldl selStep a := by
      simpa [selectBest] using h.symm
    rcases foldl_selStep_mem (a :: t) a with h2 | h2
    · rw [hb, h2]; exact List.mem_cons_self _ _
    · rw [hb]; exact h2

/-- One scan step moves the running r2 down by at most 0.05, and ends at
most 0.05 below the candidate just examined. -/
lemma selStep_r2_bound (b c : Entry) (rb q : ℚ)
    (hb : b.r2 = JsVal.num rb) (hc : c.r2 = JsVal.num q) :
    ∃ rn, (selStep b c).r2 = JsVal.num rn ∧ rb - 1/20 ≤ rn ∧ q - 1/20 ≤ rn := by
  unfold selStep
  rw [hb, hc]
  have hsub : jsSub (JsVal.num q) (JsVal.num rb) = JsVal.num (q - rb) := rfl
  rw [hsub]
  split
  · next h1 =>
    have h1q : 1/20 < q - rb := by simpa [jsGtQ] using h1
    exact ⟨q, hc, by linarith, by linarith⟩
  · next h1 =>
    have h1q : ¬ (1/20 < q - rb) := by simpa [jsGtQ] using h1
    split
    · next h2 =>
      have h2q : |q - rb| ≤ 1/20 := by simpa [jsLeQ, jsAbs] using h2
      have habs := abs_le.mp h2q
      split
      · exact ⟨q, hc, by linarith [habs.1], by linarith⟩
      · exact ⟨rb, hb, by linarith, by linarith [habs.2]⟩
    · exact ⟨rb, hb, by linarith, by linarith⟩

/-- Folding the scan over a pool of numeric-r2 candidates: the final r2 is
within 0.05 times the pool length of the seed and of every member. -/
lemma foldl_selStep_r2_bound :
    ∀ (pool : List Entry) (b : Entry) (rb : ℚ), b.r2 = JsVal.num rb →
      (∀ e ∈ pool, ∃ q : ℚ, e.r2 = JsVal.num q) →
      ∃ rf, (pool.foldl selStep b).r2 = JsVal.num rf ∧
        rb - (pool.length : ℚ) * (1/20) ≤ rf ∧
        ∀ e ∈ pool, ∀ q : ℚ, e.r2 = JsVal.num q →
          q - (pool.length : ℚ) * (1/20) ≤ rf
  | [], b, rb, hb, _ => ⟨rb, hb, by norm_num, by simp⟩
  | c :: t, b, rb, hb, hall => by
    obtain ⟨qc, hqc⟩ := hall c (List.mem_cons_self _ _)
    obtain ⟨rn, hrn, hrn1, hrn2⟩ := selStep_r2_bound b c rb qc hb hqc
    obtain ⟨rf, hrf, hrf1, hrf2⟩ :=
      foldl_selStep_r2_bound t (selStep b c) rn hrn
        (fun e he => hall e (List.mem_cons_of_mem _ he))
    have hlen : ((c :: t).length : ℚ) = (t.length : ℚ) + 1 := by
      push_cast [List.length_cons]; ring
    have hlt : (0 : ℚ) ≤ (t.length : ℚ) := by positivity
    refine ⟨rf, by rw [List.foldl_cons]; exact hrf, ?_, ?_⟩
    · rw [hlen]; linarith
    · intro e he q hq
      rcases List.mem_cons.mp he with he1 | he2
      · subst he1
        have hqq : q = qc := JsVal.num.inj (hq.symm.trans hqc)
        rw [hlen, hqq]; linarith
      · have := hrf2 e he2 q hq
        rw [hlen]; linarith

/-! ### Claim C1 -/

/-- Candidate pool member used by the C1 counterexample (r2 = 0.50, aic 10). -/
def cexA : Entry :=
  { model := "A", equation := "", r2 := .num (1/2), aic := some (.num 10), coefficients := [] }

/-- Candidate pool member used by the C1 counterexample (r2 = 0.80, aic 5). -/
def cexB : Entry :=
  { model := "B", equation := "", r2 := .num (4/5), aic := some (.num 5), coefficients := [] }

/-- Candidate pool member used by the C1 counterexample (r2 = 0.76, aic 1). -/
def cexC : Entry :=
  { model := "C", equation := "", r2 := .num (19/25), aic := some (.num 1), coefficients := [] }

/-- Candidate pool member used by the C1 counterexample (r2 = 0.72, aic 0.5). -/
def cexD : Entry :=
  { model := "D", equation := "", r2 := .num (18/25), aic := some (.num (1/2)), coefficients := [] }

/-- C1 counterexample: chained tie-breaks drift the selected best below a
candidate by more than 0.05.  On the pool with r2 values 0.50, 0.80, 0.76,
0.72 (aic 10, 5, 1, 0.5) the scan selects the 0.72 candidate, whose r2 is
below the 0.80 candidate's r2 minus 0.05, refuting the claimed bound
bestModel.r2 >= c.r2 - 0.05. -/
theorem selectBest_drifts_below_candidate :
    selectBest [cexA, cexB, cexC, cexD] = some cexD ∧
    cexB ∈ [cexA, cexB, cexC, cexD] ∧
    cexD.r2 = JsVal.num (18/25) ∧ cexB.r2 = JsVal.num (4/5) ∧
    ¬ ((4:ℚ)/5 - 1/20 ≤ 18/25) := by
  refine ⟨?_, ?_, rfl, rfl, by norm_num⟩
  · norm_num [selectBest, selStep, cexA, cexB, cexC, cexD, jsSub, jsAbs, jsGtQ,
      jsLeQ, jsLt, jsCoerceNull, abs]
  · simp

/-- C1 (amended): over any candidate pool whose r2 values are numeric, the
selected best is never more than 0.05 times the pool size below any
candidate's r2 (the per-comparison 0.05 bound accumulates across chained
tie-breaks, so the claimed single-step bound of 0.05 holds only scaled by
the number of candidates). -/
theorem selectBest_r2_within_scaled_bound (pool : List Entry) (best : Entry)
    (hsel : selectBest pool = some best)
    (hall : ∀ e ∈ pool, ∃ q : ℚ, e.r2 = JsVal.num q)
    (c : Entry) (hc : c ∈ pool) (q rb : ℚ)
    (hq : c.r2 = JsVal.num q) (hrb : best.r2 = JsVal.num rb) :
    q - (pool.length : ℚ) * (1/20) ≤ rb := by
  cases pool with
  | nil => simp [selectBest] at hsel
  | cons a t =>
    obtain ⟨ra, hra⟩ := hall a (List.mem_cons_self _ _)
    obtain ⟨rf, hrf, _, hmem⟩ := foldl_selStep_r2_bound (a :: t) a ra hra hall
    have hb : best = (a :: t).foldl selStep a := by
      simpa [selectBest] using hsel.symm
    have hrbf : rb = rf := by
      rw [hb] at hrb
      exact JsVal.num.inj (hrb.symm.trans hrf)
    rw [hrbf]
    exact hmem c hc q hq

/-- Witness for the amended C1 bound on a concrete two-candidate pool. -/
theorem selectBest_r2_within_scaled_bound_witness :
    (4:ℚ)/5 - (([cexA, cexB] : List Entry).length : ℚ) * (1/20) ≤ 4/5 :=
  selectBest_r2_within_scaled_bound [cexA, cexB] cexB
    (by norm_num [selectBest, selStep, cexA, cexB, jsSub, jsAbs, jsGtQ, jsLeQ,
          jsLt, jsCoerceNull, abs])
    (by intro e he
        rcases List.mem_cons.mp he with h | h
        · exact ⟨1/2, by rw [h]; rfl⟩
        · rcases List.mem_cons.mp h with h2 | h2
          · exact ⟨4/5, by rw [h2]; rfl⟩
          · simp at h2)
    cexB (by simp) (4/5) (4/5) rfl rfl

/-! ### Claim C3 -/

/-- C3: on a two-candidate pool the scan behaves exactly as specified: a
decisive r2 lead (more than 0.05) wins regardless of aic in both
directions, and within the 0.05 band the strictly lower aic wins even when
its r2 is lower. -/
theorem selectBest_two_candidates (c1 c2 : Entry) (r1 a1 r2q a2 : ℚ)
    (h1 : c1.r2 = JsVal.num r1) (h2 : c1.aic = some (JsVal.num a1))
    (h3 : c2.r2 = JsVal.num r2q) (h4 : c2.aic = some (JsVal.num a2)) :
    ((1/20 : ℚ) < r2q - r1 → selectBest [c1, c2] = some c2) ∧
    ((1/20 : ℚ) < r1 - r2q → selectBest [c1, c2] = some c1) ∧
    (|r2q - r1| ≤ 1/20 →
      (a2 < a1 → selectBest [c1, c2] = some c2) ∧
      (a1 < a2 → selectBest [c1, c2] = some c1)) := by
  have hfold : selectBest [c1, c2] = some (selStep c1 c2) := by
    simp [selectBest, selStep_self]
  have hs : selStep c1 c2 =
      (if (1/20 : ℚ) < r2q - r1 then c2
       else if |r2q - r1| ≤ 1/20 then (if a2 < a1 then c2 else c1) else c1) := by
    unfold selStep
    rw [h1, h3, h2, h4]
    simp [jsSub, jsGtQ, jsLeQ, jsAbs, jsLt, jsCoerceNull]
  refine ⟨?_, ?_, ?_⟩
  · intro h
    rw [hfold, hs, if_pos h]
  · intro h
    have hn1 : ¬ ((1/20 : ℚ) < r2q - r1) := by linarith
    have hn2 : ¬ (|r2q - r1| ≤ 1/20) := by
      rw [abs_le]; push_neg; intro h5; linarith
    rw [hfold, hs, if_neg hn1, if_neg hn2]
  · intro hband
    have hn1 : ¬ ((1/20 : ℚ) < r2q - r1) := by
      have := abs_le.mp hband
      linarith [this.2]
    constructor
    · intro ha
      rw [hfold, hs, if_neg hn1, if_pos hband, if_pos ha]
    · intro ha
      have : ¬ (a2 < a1) := by linarith
      rw [hfold, hs, if_neg hn1, if_pos hband, if_neg this]

/-- Witness for C3 on a concrete pool: decisive win and tie-break both
instantiated at r2 values 0.80 and 0.76 with aic 5 and 1. -/
theorem selectBest_two_candidates_witness :
    ((1/20 : ℚ) < 19/25 - 4/5 → selectBest [cexB, cexC] = some cexC) ∧
    ((1/20 : ℚ) < 4/5 - 19/25 → selectBest [cexB, cexC] = some cexB) ∧
    (|(19:ℚ)/25 - 4/5| ≤ 1/20 →
      ((1:ℚ) < 5 → selectBest [cexB, cexC] = some cexC) ∧
      ((5:ℚ) < 1 → selectBest [cexB, cexC] = some cexB)) :=
  selectBest_two_candidates cexB cexC (4/5) 5 (19/25) 1 rfl rfl rfl rfl

/-! ### Characterisation of the results array -/

/-- The entry (if any) that one family outcome contributes to results:
none when the fit threw or its r2 failed the validity guard. -/
def entryOf (logf : ℚ → JsVal) (n : ℚ) (p : String × Option FitRes) : Option Entry :=
  match p.2 with
  | none => none
  | some res =>
    match res.r2 with
    | none => none
    | some v =>
      if jsIsNaN v || jsLtQ v 0 then none
      else some { model := p.1
                  equation := res.str
                  r2 := v
                  aic := calculateAIC logf n res.equation.length res.r2
                  coefficients := res.equation }

/-- One forEach iteration appends exactly the contributed entry. -/
lemma pushModel_eq (logf : ℚ → JsVal) (n : ℚ) (acc : List Entry)
    (p : String × Option FitRes) :
    pushModel logf n acc p = acc ++ (entryOf logf n p).toList := by
  rcases p with ⟨nm, o⟩
  cases o with
  | none => simp [pushModel, entryOf]
  | some res =>
    cases hr : res.r2 with
    | none => simp [pushModel, entryOf, hr]
    | some v =>
      by_cases hg : (jsIsNaN v || jsLtQ v 0) = true
      · simp [pushModel, entryOf, hr, hg]
      · simp [pushModel, entryOf, hr, hg]

/-- The forEach fold is the filterMap of per-family contributions. -/
lemma foldl_pushModel_eq (logf : ℚ → JsVal) (n : ℚ) :
    ∀ (ms : List (String × Option FitRes)) (acc : List Entry),
      ms.foldl (pushModel logf n) acc = acc ++ ms.filterMap (entryOf logf n)
  | [], acc => by simp
  | p :: ms, acc => by
    rw [List.foldl_cons, foldl_pushModel_eq logf n ms, pushModel_eq]
    cases h : entryOf logf n p <;>
      simp [List.filterMap_cons, h]

/-- The results array is the in-order filterMap of the family outcomes. -/
lemma buildResults_eq (logf : ℚ → JsVal) (n : ℚ)
    (ms : List (String × Option FitRes)) :
    buildResults logf n ms = ms.filterMap (entryOf logf n) := by
  simpa using foldl_pushModel_eq logf n ms []

/-- Shape of any entry contributed by an outcome: its r2 passed the guard
and its aic is the computed information criterion of that outcome. -/
lemma entryOf_some {logf : ℚ → JsVal} {n : ℚ} {p : String × Option FitRes}
    {e : Entry} (h : entryOf logf n p = some e) :
    jsIsNaN e.r2 = false ∧ jsLtQ e.r2 0 = false ∧ e.model = p.1 ∧
    ∃ res, p.2 = some res ∧ res.r2 = some e.r2 ∧
      e.aic = calculateAIC logf n res.equation.length res.r2 := by
  rcases p with ⟨nm, o⟩
  cases o with
  | none => simp [entryOf] at h
  | some res =>
    cases hr : res.r2 with
    | none => simp [entryOf, hr] at h
    | some v =>
      by_cases hg : (jsIsNaN v || jsLtQ v 0) = true
      · simp [entryOf, hr, hg] at h
      · simp [entryOf, hr, hg] at h
        simp only [Bool.or_eq_true, not_or, Bool.not_eq_true] at hg
        refine ⟨?_, ?_, ?_, res, rfl, ?_, ?_⟩ <;>
          simp [← h, hg.1, hg.2, hr]

/-- Boolean aic validity holds exactly for a present finite number. -/
lemma validAic_iff (o : Option JsVal) :
    validAic o = true ↔ ∃ t : ℚ, o = some (JsVal.num t) := by
  cases o with
  | none => simp [validAic]
  | some v => cases v <;> simp [validAic, jsIsNaN, jsIsFinite]

/-- A family outcome is usable exactly when its r2 passes the validity
guard and the aic computed from it is a defined finite number. -/
def usableOutcome (logf : ℚ → JsVal) (n : ℚ) : Option FitRes → Bool
  | none => false
  | some res => validR2 res.r2 && validAic (calculateAIC logf n res.equation.length res.r2)

/-- Usability of an outcome coincides with contributing a valid-aic entry. -/
lemma usableOutcome_iff (logf : ℚ → JsVal) (n : ℚ) (p : String × Option FitRes) :
    usableOutcome logf n p.2 = true ↔
      ∃ e, entryOf logf n p = some e ∧ validAic e.aic = true := by
  rcases p with ⟨nm, o⟩
  cases o with
  | none => simp [usableOutcome, entryOf]
  | some res =>
    cases hr : res.r2 with
    | none => simp [usableOutcome, entryOf, hr, validR2]
    | some v =>
      by_cases hg : (jsIsNaN v || jsLtQ v 0) = true
      · have hv : validR2 (some v) = false := by
          rcases Bool.or_eq_true_iff.mp hg with h | h <;>
            simp [validR2, h]
        simp [usableOutcome, entryOf, hr, hg, hv]
      · have hv : validR2 (some v) = true := by
          simp only [Bool.or_eq_true, not_or, Bool.not_eq_true] at hg
          simp [validR2, hg.1, hg.2]
        simp [usableOutcome, entryOf, hr, hg, hv]

/-- An empty scan result means an empty pool. -/
lemma selectBest_eq_none (pool : List Entry) :
    selectBest pool = none ↔ pool = [] := by
  cases pool <;> simp [selectBest]

/-! ### Claims C2 and C5 -/

/-- C2: the analysis throws the no-valid-model error exactly when no
attempted family yields an outcome with guard-passing r2 and a defined,
finite aic; any returned bestModel has non-NaN, non-negative r2 and a
finite numeric aic. -/
theorem runRegressionAnalysis_error_iff_and_best_valid
    (logf : ℚ → JsVal) (data : List (ℚ × ℚ)) (outcomes : List (Option FitRes)) :
    (runRegressionAnalysis logf data outcomes = Except.error noValidModelMsg ↔
      ∀ p ∈ modelNames.zip outcomes,
        usableOutcome logf (data.length : ℚ) p.2 = false) ∧
    (∀ sel, runRegressionAnalysis logf data outcomes = Except.ok sel →
      jsIsNaN sel.bestModel.r2 = false ∧ jsLtQ sel.bestModel.r2 0 = false ∧
      ∃ t : ℚ, sel.bestModel.aic = some (JsVal.num t)) := by
  have hrun : runRegressionAnalysis logf data outcomes =
      (match selectBest ((buildResults logf (data.length : ℚ)
          (modelNames.zip outcomes)).filter (fun r => validAic r.aic)) with
       | none => Except.error noValidModelMsg
       | some best => Except.ok
           { bestModel := best
             allModels := buildResults logf (data.length : ℚ) (modelNames.zip outcomes) }) :=
    rfl
  constructor
  · constructor
    · intro herr p hp
      cases hsel : selectBest ((buildResults logf (data.length : ℚ)
          (modelNames.zip outcomes)).filter (fun r => validAic r.aic)) with
      | some b => rw [hrun, hsel] at herr; cases herr
      | none =>
        have hempty := (selectBest_eq_none _).mp hsel
        by_contra hne
        have hu : usableOutcome logf (data.length : ℚ) p.2 = true := by
          cases hval : usableOutcome logf (data.length : ℚ) p.2 with
          | false => exact absurd hval hne
          | true => rfl
        obtain ⟨e, he, hv⟩ := (usableOutcome_iff logf (data.length : ℚ) p).mp hu
        have hmem : e ∈ buildResults logf (data.length : ℚ) (modelNames.zip outcomes) := by
          rw [buildResults_eq]
          exact List.mem_filterMap.mpr ⟨p, hp, he⟩
        have : e ∈ (buildResults logf (data.length : ℚ)
            (modelNames.zip outcomes)).filter (fun r => validAic r.aic) :=
          List.mem_filter.mpr ⟨hmem, hv⟩
        rw [hempty] at this
        cases this
    · intro hall
      have hempty : (buildResults logf (data.length : ℚ)
          (modelNames.zip outcomes)).filter (fun r => validAic r.aic) = [] := by
        rw [List.filter_eq_nil_iff]
        intro e he
        rw [buildResults_eq] at he
        obtain ⟨p, hp, hep⟩ := List.mem_filterMap.mp he
        intro hv
        have := (usableOutcome_iff logf (data.length : ℚ) p).mpr ⟨e, hep, hv⟩
        rw [hall p hp] at this
        cases this
      rw [hrun, hempty]
      rfl
  · intro sel hok
    cases hsel : selectBest ((buildResults logf (data.length : ℚ)
        (modelNames.zip outcomes)).filter (fun r => validAic r.aic)) with
    | none => rw [hrun, hsel] at hok; cases hok
    | some best =>
      rw [hrun, hsel] at hok
      have hseleq : sel.bestModel = best := by
        cases hok
        rfl
      have hmem := selectBest_mem hsel
      have hv : validAic best.aic = true := by
        have := (List.mem_filter.mp hmem).2
        simpa using this
      have hr : best ∈ buildResults logf (data.length : ℚ) (modelNames.zip outcomes) :=
        (List.mem_filter.mp hmem).1
      rw [buildResults_eq] at hr
      obtain ⟨p, _, hep⟩ := List.mem_filterMap.mp hr
      obtain ⟨hnan, hneg, _, _⟩ := entryOf_some hep
      obtain ⟨t, ht⟩ := (validAic_iff _).mp hv
      exact ⟨by rw [hseleq]; exact hnan, by rw [hseleq]; exact hneg,
        ⟨t, by rw [hseleq]; exact ht⟩⟩

/-- Linear outcome with an invalid (negative) r2, used by the C5
counterexample and the concrete witnesses. -/
def cexLinRes : FitRes :=
  { r2 := some (.num (-1)), equation := [.num 1, .num 0], str := "lin" }

/-- Quadratic outcome with a valid r2 of 0.5, used by the C5 counterexample
and the concrete witnesses. -/
def cexQuadRes : FitRes :=
  { r2 := some (.num (1/2)), equation := [.num 1, .num 0, .num 0], str := "quad" }

/-- Concrete outcome list: Linear produces an invalid-r2 result, Quadratic
a valid one, the remaining five families throw. -/
def cexOutcomes : List (Option FitRes) :=
  [some cexLinRes, some cexQuadRes, none, none, none, none, none]

/-- The entry the quadratic outcome contributes on a two-point dataset
(n = 2, k = 3, aic = 2 * ln(1 - 0.5) + 6 with the stand-in log = 0). -/
def cexQuadEntry : Entry :=
  { model := "Quadratic", equation := "quad", r2 := .num (1/2),
    aic := some (.num 6), coefficients := [.num 1, .num 0, .num 0] }

/-- The full selection produced on the concrete outcome list. -/
def cexSel : Selection :=
  { bestModel := cexQuadEntry, allModels := [cexQuadEntry] }

/-- Concrete end-to-end run of the embedded service on the outcome list. -/
lemma cexRun_eq :
    runRegressionAnalysis (fun _ => JsVal.num 0) [(0, 0), (1, 1)] cexOutcomes =
      Except.ok cexSel := by
  norm_num [runRegressionAnalysis, buildResults, pushModel, modelNames,
    cexLinRes, cexQuadRes, cexOutcomes, cexQuadEntry, cexSel, calculateAIC,
    jsIsNaN, jsLtQ, jsGeQ, jsLeQ, jsLog, jsSub, selectBest, selStep,
    validAic, jsIsFinite, List.filter, jsAbs, jsLt, jsCoerceNull, abs]

/-- Witness for C2 at the concrete run: the returned best model has
non-NaN, non-negative r2 and a finite numeric aic. -/
theorem runRegressionAnalysis_error_iff_and_best_valid_witness :
    jsIsNaN cexSel.bestModel.r2 = false ∧ jsLtQ cexSel.bestModel.r2 0 = false ∧
    ∃ t : ℚ, cexSel.bestModel.aic = some (JsVal.num t) :=
  (runRegressionAnalysis_error_iff_and_best_valid
    (fun _ => JsVal.num 0) [(0, 0), (1, 1)] cexOutcomes).2 cexSel cexRun_eq

/-- C5 counterexample: the Linear family produced a FitResult (with
negative, hence invalid, r2), yet allModels contains no Linear entry — the
guard drops invalid-r2 results before they are pushed, so allModels does
not list every family that produced a FitResult. -/
theorem runRegressionAnalysis_omits_invalid_r2_family :
    runRegressionAnalysis (fun _ => JsVal.num 0) [(0, 0), (1, 1)] cexOutcomes =
      Except.ok cexSel ∧
    (modelNames.zip cexOutcomes).get? 0 = some ("Linear", some cexLinRes) ∧
    (∀ e ∈ cexSel.allModels, e.model ≠ "Linear") := by
  refine ⟨cexRun_eq, rfl, ?_⟩
  intro e he
  simp only [cexSel, cexQuadEntry, List.mem_singleton] at he
  rw [he]
  decide

/-- Helper for C5: an outcome whose r2 passes the validity guard always
contributes an entry carrying its family name and computed aic. -/
lemma entryOf_of_validR2 {logf : ℚ → JsVal} {n : ℚ}
    {p : String × Option FitRes} {res : FitRes}
    (hp : p.2 = some res) (hv : validR2 res.r2 = true) :
    ∃ e, entryOf logf n p = some e ∧ e.model = p.1 ∧
      e.aic = calculateAIC logf n res.equation.length res.r2 := by
  rcases p with ⟨nm, o⟩
  cases hp
  cases hr : res.r2 with
  | none => rw [hr] at hv; simp [validR2] at hv
  | some v =>
    rw [hr] at hv
    have hg : (jsIsNaN v || jsLtQ v 0) = false := by
      cases hnan : jsIsNaN v <;> cases hlt : jsLtQ v 0 <;>
        simp_all [validR2]
    refine ⟨{ model := nm, equation := res.str, r2 := v,
              aic := calculateAIC logf n res.equation.length (some v),
              coefficients := res.equation }, ?_, rfl, rfl⟩
    simp [entryOf, hr, hg]

/-- C5 (amended): allModels is, in family-attempt order, exactly the list
of entries contributed by outcomes whose r2 passes the validity guard;
in particular every guard-passing family appears with its computed aic,
including families whose aic is undefined or non-finite, while families
with invalid r2 are omitted. -/
theorem runRegressionAnalysis_allModels_characterisation
    (logf : ℚ → JsVal) (data : List (ℚ × ℚ)) (outcomes : List (Option FitRes))
    (sel : Selection)
    (h : runRegressionAnalysis logf data outcomes = Except.ok sel) :
    sel.allModels =
      (modelNames.zip outcomes).filterMap (entryOf logf (data.length : ℚ)) ∧
    (∀ p ∈ modelNames.zip outcomes, ∀ res, p.2 = some res →
      validR2 res.r2 = true →
      ∃ e ∈ sel.allModels, e.model = p.1 ∧
        e.aic = calculateAIC logf (data.length : ℚ) res.equation.length res.r2) := by
  have hrun : runRegressionAnalysis logf data outcomes =
      (match selectBest ((buildResults logf (data.length : ℚ)
          (modelNames.zip outcomes)).filter (fun r => validAic r.aic)) with
       | none => Except.error noValidModelMsg
       | some best => Except.ok
           { bestModel := best
             allModels := buildResults logf (data.length : ℚ) (modelNames.zip outcomes) }) :=
    rfl
  have hall : sel.allModels =
      buildResults logf (data.length : ℚ) (modelNames.zip outcomes) := by
    cases hsel : selectBest ((buildResults logf (data.length : ℚ)
        (modelNames.zip outcomes)).filter (fun r => validAic r.aic)) with
    | none => rw [hrun, hsel] at h; cases h
    | some best =>
      rw [hrun, hsel] at h
      cases h
      rfl
  constructor
  · rw [hall, buildResults_eq]
  · intro p hp res hres hv
    obtain ⟨e, he, hm, ha⟩ :=
      @entryOf_of_validR2 logf (data.length : ℚ) p res hres hv
    refine ⟨e, ?_, hm, ha⟩
    rw [hall, buildResults_eq]
    exact List.mem_filterMap.mpr ⟨p, hp, he⟩

/-- Witness for the amended C5 at the concrete run: allModels is exactly
the contributed-entry list, and the guard-passing Quadratic family appears
with its computed aic. -/
theorem runRegressionAnalysis_allModels_characterisation_witness :
    cexSel.allModels =
      (modelNames.zip cexOutcomes).filterMap (entryOf (fun _ => JsVal.num 0)
        (([( (0:ℚ), (0:ℚ)), (1, 1)].length : ℚ))) ∧
    (∀ p ∈ modelNames.zip cexOutcomes, ∀ res, p.2 = some res →
      validR2 res.r2 = true →
      ∃ e ∈ cexSel.allModels, e.model = p.1 ∧
        e.aic = calculateAIC (fun _ => JsVal.num 0)
          (([( (0:ℚ), (0:ℚ)), (1, 1)].length : ℚ)) res.equation.length res.r2) :=
  runRegressionAnalysis_allModels_characterisation
    (fun _ => JsVal.num 0) [(0, 0), (1, 1)] cexOutcomes cexSel cexRun_eq

/-! ### Claims C4 and C8 -/

/-- When the r2 guard passes, every branch of calculateAIC produces a
finite number. -/
lemma calculateAIC_guard_false {logf : ℚ → JsVal} {n k : ℚ} {v : JsVal}
    (h : (jsIsNaN v || jsLtQ v 0) = false) :
    ∃ w : ℚ, calculateAIC logf n k (some v) = some (JsVal.num w) := by
  simp only [calculateAIC, h, Bool.false_eq_true, if_false]
  split
  · exact ⟨_, rfl⟩
  · split
    · exact ⟨_, rfl⟩
    · cases hlog : jsLog logf (jsSub (JsVal.num 1) v) <;> simp [hlog]

/-- Evaluation of calculateAIC in its near-perfect branch. -/
lemma calculateAIC_near_one {logf : ℚ → JsVal} {n k q : ℚ}
    (h0 : 0 ≤ q) (hge : 99999/100000 ≤ q) :
    calculateAIC logf n k (some (JsVal.num q)) = some (JsVal.num (-500 + k * 10)) := by
  have d1 : decide (q < 0) = false := decide_eq_false (not_lt.mpr h0)
  have d2 : decide ((99999:ℚ)/100000 ≤ q) = true := decide_eq_true hge
  simp [calculateAIC, jsIsNaN, jsLtQ, jsGeQ, d1, d2]

/-- Evaluation of calculateAIC in its very-poor-fit branch. -/
lemma calculateAIC_near_zero {logf : ℚ → JsVal} {n k q : ℚ}
    (h0 : 0 ≤ q) (hge : ¬ (99999/100000 ≤ q)) (hle : q ≤ 1/100000) :
    calculateAIC logf n k (some (JsVal.num q)) = some (JsVal.num (1000 + k * 10)) := by
  have d1 : decide (q < 0) = false := decide_eq_false (not_lt.mpr h0)
  have d2 : decide ((99999:ℚ)/100000 ≤ q) = false := decide_eq_false hge
  have d3 : decide (q ≤ (1:ℚ)/100000) = true := decide_eq_true hle
  simp [calculateAIC, jsIsNaN, jsLtQ, jsGeQ, jsLeQ, d1, d2, d3]
  intro h
  have hle2 : q ≤ (100000:ℚ)⁻¹ := by rw [← one_div]; exact hle
  exact absurd h (not_lt.mpr hle2)

/-- Evaluation of calculateAIC in its main logarithmic branch. -/
lemma calculateAIC_log_branch {logf : ℚ → JsVal} {n k q t : ℚ}
    (h0 : 0 ≤ q) (hge : ¬ (99999/100000 ≤ q)) (hle : ¬ (q ≤ 1/100000))
    (ht : logf (1 - q) = JsVal.num t) :
    calculateAIC logf n k (some (JsVal.num q)) = some (JsVal.num (n * t + 2 * k)) := by
  have d1 : decide (q < 0) = false := decide_eq_false (not_lt.mpr h0)
  have d2 : decide ((99999:ℚ)/100000 ≤ q) = false := decide_eq_false hge
  have d3 : decide (q ≤ (1:ℚ)/100000) = true → False := by
    intro h
    exact hle (of_decide_eq_true h)
  have d3f : decide (q ≤ (1:ℚ)/100000) = false := decide_eq_false hle
  have hpos : (0:ℚ) < 1 - q := by
    have : q < 99999/100000 := not_le.mp hge
    linarith
  have hsub : jsSub (JsVal.num 1) (JsVal.num q) = JsVal.num (1 - q) := rfl
  have hlog : jsLog logf (jsSub (JsVal.num 1) (JsVal.num q)) = JsVal.num t := by
    rw [hsub]
    simp [jsLog, hpos, ht]
  simp [calculateAIC, jsIsNaN, jsLtQ, jsGeQ, jsLeQ, d1, d2, d3f, hlog]
  intro h
  have hle2 : q ≤ (1:ℚ)/100000 := by rw [one_div]; exact h
  exact absurd hle2 hle

/-- C4: calculateAIC returns the undefined marker exactly for null, NaN or
negative r2; and on any r2 in [0,1] (with n >= 1 and any k) it returns a
finite number, provided the external logarithm is finite on positive
arguments, as Math.log is. -/
theorem calculateAIC_undefined_iff_and_finite :
    (∀ (logf : ℚ → JsVal) (n k : ℚ) (r2 : Option JsVal),
      calculateAIC logf n k r2 = none ↔
        (r2 = none ∨ r2 = some JsVal.nan ∨
          ∃ v, r2 = some v ∧ jsLtQ v 0 = true)) ∧
    (∀ (logf : ℚ → JsVal) (n k q : ℚ),
      (∀ y : ℚ, 0 < y → ∃ t : ℚ, logf y = JsVal.num t) →
      1 ≤ n → 0 ≤ q → q ≤ 1 →
      ∃ t : ℚ, calculateAIC logf n k (some (JsVal.num q)) = some (JsVal.num t)) := by
  constructor
  · intro logf n k r2
    cases r2 with
    | none => simp [calculateAIC]
    | some v =>
      by_cases hg : (jsIsNaN v || jsLtQ v 0) = true
      · have hnone : calculateAIC logf n k (some v) = none := by
          simp [calculateAIC, hg]
        rw [hnone]
        simp only [true_iff]
        rcases Bool.or_eq_true_iff.mp hg with h | h
        · cases v <;> simp_all [jsIsNaN]
        · exact Or.inr (Or.inr ⟨v, rfl, h⟩)
      · have hg2 : (jsIsNaN v || jsLtQ v 0) = false := by
          cases hval : (jsIsNaN v || jsLtQ v 0) with
          | false => rfl
          | true => exact absurd hval hg
        obtain ⟨hg21, hg22⟩ := Bool.or_eq_false_iff.mp hg2
        obtain ⟨w, hw⟩ := @calculateAIC_guard_false logf n k v hg2
        rw [hw]
        constructor
        · intro h; cases h
        · rintro (h | h | ⟨u, hu, hlt⟩)
          · cases h
          · have hv : v = JsVal.nan := Option.some.inj h
            rw [hv] at hg21
            cases hg21
          · have hv : v = u := Option.some.inj hu
            rw [← hv] at hlt
            rw [hg22] at hlt
            cases hlt
  · intro logf n k q hlog _ h0 h1
    by_cases hge : (99999/100000 : ℚ) ≤ q
    · exact ⟨-500 + k * 10, calculateAIC_near_one h0 hge⟩
    · by_cases hle : q ≤ 1/100000
      · exact ⟨1000 + k * 10, calculateAIC_near_zero h0 hge hle⟩
      · have hpos : (0 : ℚ) < 1 - q := by
          have : q < 99999/100000 := not_le.mp hge
          linarith
        obtain ⟨t, ht⟩ := hlog (1 - q) hpos
        exact ⟨n * t + 2 * k, calculateAIC_log_branch h0 hge hle ht⟩

/-- Witness for C4: the finiteness half applied at n = 1, k = 1,
r2 = 0.5 with a stand-in logarithm that is finite on positive inputs. -/
theorem calculateAIC_undefined_iff_and_finite_witness :
    ∃ t : ℚ, calculateAIC (fun _ => JsVal.num 0) 1 1 (some (JsVal.num (1/2))) =
      some (JsVal.num t) :=
  calculateAIC_undefined_iff_and_finite.2 (fun _ => JsVal.num 0) 1 1 (1/2)
    (fun _ _ => ⟨0, rfl⟩) le_rfl (by norm_num) (by norm_num)

/-- C8: for fixed n >= 1 and fixed k, calculateAIC is monotonically
non-increasing in r2 over the open interval between the near-zero and
near-one thresholds, assuming the external logarithm is finite and
monotone on positive arguments, as Math.log is. -/
theorem calculateAIC_antitone_in_r2 (logf : ℚ → JsVal) (n k r2a r2b : ℚ)
    (hfin : ∀ y : ℚ, 0 < y → ∃ t : ℚ, logf y = JsVal.num t)
    (hmono : ∀ y z ty tz : ℚ, 0 < y → y ≤ z →
      logf y = JsVal.num ty → logf z = JsVal.num tz → ty ≤ tz)
    (hn : 1 ≤ n)
    (h1 : 1/100000 < r2a) (h2 : r2a ≤ r2b) (h3 : r2b < 99999/100000) :
    ∃ ta tb : ℚ,
      calculateAIC logf n k (some (JsVal.num r2a)) = some (JsVal.num ta) ∧
      calculateAIC logf n k (some (JsVal.num r2b)) = some (JsVal.num tb) ∧
      tb ≤ ta := by
  have hposb : (0 : ℚ) < 1 - r2b := by linarith
  have hposa : (0 : ℚ) < 1 - r2a := by linarith
  obtain ⟨ta0, hta⟩ := hfin (1 - r2a) hposa
  obtain ⟨tb0, htb⟩ := hfin (1 - r2b) hposb
  have hord : tb0 ≤ ta0 :=
    hmono (1 - r2b) (1 - r2a) tb0 ta0 hposb (by linarith) htb hta
  refine ⟨n * ta0 + 2 * k, n * tb0 + 2 * k, ?_, ?_, ?_⟩
  · exact calculateAIC_log_branch (by linarith) (by intro h; linarith)
      (by intro h; linarith) hta
  · exact calculateAIC_log_branch (by linarith) (by intro h; linarith)
      (by intro h; linarith) htb
  · have hmul : n * tb0 ≤ n * ta0 :=
      mul_le_mul_of_nonneg_left hord (by linarith)
    linarith

/-- Witness for C8 at n = 1, k = 0, r2 values 0.25 and 0.5 with a constant
stand-in logarithm (finite and monotone). -/
theorem calculateAIC_antitone_in_r2_witness :
    ∃ ta tb : ℚ,
      calculateAIC (fun _ => JsVal.num 0) 1 0 (some (JsVal.num (1/4))) =
        some (JsVal.num ta) ∧
      calculateAIC (fun _ => JsVal.num 0) 1 0 (some (JsVal.num (1/2))) =
        some (JsVal.num tb) ∧
      tb ≤ ta :=
  calculateAIC_antitone_in_r2 (fun _ => JsVal.num 0) 1 0 (1/4) (1/2)
    (fun _ _ => ⟨0, rfl⟩)
    (fun y z ty tz _ _ hty htz => by
      have hy : ty = 0 := (JsVal.num.inj hty).symm
      have hz : tz = 0 := (JsVal.num.inj htz).symm
      rw [hy, hz])
    le_rfl (by norm_num) (by norm_num) (by norm_num)

/-! ### Claim C6 -/

/-- C6 (code evaluation at the failing input): with coefficient sequence
[a, b] = [1, 2] and x = 1 (where ln 1 = 0), evaluateLogarithmic returns 2 =
coefficients[1] + coefficients[0] * ln 1, not the specified
a + b * ln 1 = 1: the source reads b from coefficients[0] and a from
coefficients[1], swapping the documented [a, b] order. -/
theorem evaluateLogarithmic_swapped_coefficients (logf : ℚ → JsVal)
    (h1 : logf 1 = JsVal.num 0) :
    evaluateLogarithmic logf (some [JsVal.num 1, JsVal.num 2]) 1 =
      some (JsVal.num 2) ∧ (2 : ℚ) ≠ 1 + 2 * 0 := by
  constructor
  · norm_num [evaluateLogarithmic, jsIsNaN, jsLog, jsAdd, jsMul, h1]
  · norm_num

/-- Witness for the C6 evaluation with a stand-in logarithm that agrees
with ln at the probed point (ln 1 = 0). -/
theorem evaluateLogarithmic_swapped_coefficients_witness :
    evaluateLogarithmic (fun _ => JsVal.num 0) (some [JsVal.num 1, JsVal.num 2]) 1 =
      some (JsVal.num 2) ∧ (2 : ℚ) ≠ 1 + 2 * 0 :=
  evaluateLogarithmic_swapped_coefficients (fun _ => JsVal.num 0) rfl

/-! ### Claim C7 -/

/-- Logarithmic best-model entry used by the C7 counterexample. -/
def cexLogEntry : Entry :=
  { model := "Logarithmic", equation := "", r2 := .num 1, aic := some (.num 0),
    coefficients := [.num 1, .num 1] }

/-- C7 counterexample: at the point (0, 5) the logarithmic prediction is
undefined (x <= 0), yet the residual entry carries the plain number 5 — the
null prediction is coerced to 0 by the JavaScript subtraction, so the point
is neither dropped nor flagged as undefined but given a fabricated numeric
residual equal to y. -/
theorem calculateResiduals_fabricates_numeric_residual :
    predictAt (fun _ => JsVal.num 0) (fun _ => JsVal.num 0) (fun _ _ => JsVal.num 0)
      cexLogEntry 0 = none ∧
    calculateResiduals (fun _ => JsVal.num 0) (fun _ => JsVal.num 0)
      (fun _ _ => JsVal.num 0) [(0, 5)] cexLogEntry =
      [{ x := 0, residual := JsVal.num 5 }] := by
  constructor
  · norm_num [predictAt, cexLogEntry, evaluateLogarithmic]
  · norm_num [calculateResiduals, predictAt, cexLogEntry, evaluateLogarithmic,
      jsCoerceNull, jsSub]

/-- C7 (amended): the residual operation returns one entry per input point
in input order; a point with a defined prediction gets the residual
y - predicted(x); a point whose prediction is undefined gets the plain
numeric residual y (the null prediction is coerced to 0), with no
undefined flag. -/
theorem calculateResiduals_pointwise (logf expf : ℚ → JsVal)
    (powf : ℚ → JsVal → JsVal) (data : List (ℚ × ℚ)) (bm : Entry) :
    (calculateResiduals logf expf powf data bm).length = data.length ∧
    ∀ i, i < data.length →
      ((calculateResiduals logf expf powf data bm).getD i
          { x := 0, residual := .nan }).x = (data.getD i (0, 0)).1 ∧
      (∀ v, predictAt logf expf powf bm (data.getD i (0, 0)).1 = some v →
        ((calculateResiduals logf expf powf data bm).getD i
            { x := 0, residual := .nan }).residual =
          jsSub (JsVal.num (data.getD i (0, 0)).2) v) ∧
      (predictAt logf expf powf bm (data.getD i (0, 0)).1 = none →
        ((calculateResiduals logf expf powf data bm).getD i
            { x := 0, residual := .nan }).residual =
          JsVal.num (data.getD i (0, 0)).2) := by
  constructor
  · simp [calculateResiduals]
  · intro i hi
    have hm : i < (calculateResiduals logf expf powf data bm).length := by
      simpa [calculateResiduals] using hi
    have hd : (data.getD i (0, 0)) = data[i] := List.getD_eq_getElem data (0, 0) hi
    have hr : (calculateResiduals logf expf powf data bm).getD i
        { x := 0, residual := .nan } =
        { x := data[i].1
          residual := jsSub (JsVal.num data[i].2)
            (jsCoerceNull (predictAt logf expf powf bm data[i].1)) } := by
      rw [List.getD_eq_getElem _ _ hm]
      simp [calculateResiduals]
    refine ⟨by rw [hr, hd], ?_, ?_⟩
    · intro v hv
      rw [hd] at hv
      rw [hr, hd]
      simp [hv, jsCoerceNull]
    · intro hv
      rw [hd] at hv
      rw [hr, hd]
      simp [hv, jsCoerceNull, jsSub]

/-- Witness for the amended C7 on a one-point dataset with an undefined
prediction: the entry keeps the x value and carries the numeric residual y. -/
theorem calculateResiduals_pointwise_witness :
    ((calculateResiduals (fun _ => JsVal.num 0) (fun _ => JsVal.num 0)
        (fun _ _ => JsVal.num 0) [((0:ℚ), (5:ℚ))] cexLogEntry).getD 0
        { x := 0, residual := .nan }).x = (([((0:ℚ), (5:ℚ))].getD 0 (0, 0)).1) :=
  ((calculateResiduals_pointwise (fun _ => JsVal.num 0) (fun _ => JsVal.num 0)
    (fun _ _ => JsVal.num 0) [((0:ℚ), (5:ℚ))] cexLogEntry).2 0 (by norm_num)).1

/-! ### Claim C9 -/

/-- C9: any request body that is not a sequence of at least two points is
rejected with a single 400 response carrying the fixed message, whatever
the analysis function does — in particular no analysis result is produced
and no family fitting outcome can influence the response. -/
theorem handleAnalyze_rejects_short_input
    (analyze : List (ℚ × ℚ) → Except String Selection)
    (body : Option (List (ℚ × ℚ)))
    (h : body = none ∨ ∃ d, body = some d ∧ d.length < 2) :
    handleAnalyze analyze body =
      { status := 400, payload := .errMsg minPointsMsg } := by
  rcases h with h | ⟨d, hd, hlen⟩
  · rw [h]; rfl
  · rw [hd]; simp [handleAnalyze, hlen]

/-- Witness for C9: a one-point body is rejected with the 400 response. -/
theorem handleAnalyze_rejects_short_input_witness :
    handleAnalyze (fun _ => Except.error noValidModelMsg) (some [(1, 1)]) =
      { status := 400, payload := .errMsg minPointsMsg } :=
  handleAnalyze_rejects_short_input (fun _ => Except.error noValidModelMsg)
    (some [(1, 1)]) (Or.inr ⟨[(1, 1)], rfl, by norm_num⟩)

/-! ### Claim C10 -/

/-- C10: evaluateExponential never returns the undefined marker — its
codomain is a plain number.  Missing, short, or NaN coefficients all yield
the number 0, indistinguishable from a genuine zero prediction, while
well-formed coefficients [a, b] yield a * exp(b * x) for every x. -/
theorem evaluateExponential_total (expf : ℚ → JsVal) (x : ℚ) :
    evaluateExponential expf none x = JsVal.num 0 ∧
    (∀ cs : List JsVal, cs.length < 2 →
      evaluateExponential expf (some cs) x = JsVal.num 0) ∧
    (∀ cs : List JsVal, 2 ≤ cs.length →
      (jsIsNaN (cs.getD 0 .nan) = true ∨ jsIsNaN (cs.getD 1 .nan) = true) →
      evaluateExponential expf (some cs) x = JsVal.num 0) ∧
    (∀ a b e : ℚ, expf (b * x) = JsVal.num e →
      evaluateExponential expf (some [JsVal.num a, JsVal.num b]) x =
        JsVal.num (a * e)) := by
  refine ⟨rfl, ?_, ?_, ?_⟩
  · intro cs hlen
    simp [evaluateExponential, hlen]
  · intro cs hlen hnan
    have hnl : ¬ (cs.length < 2) := Nat.not_lt.mpr hlen
    rcases hnan with h | h <;> simp at h <;>
      simp [evaluateExponential, hnl, h]
  · intro a b e hexp
    simp [evaluateExponential, jsIsNaN, jsMul, jsExpV, hexp]

/-- Witness for C10 at coefficients [2, 3], x = 0, with a stand-in
exponential that returns 1 at the probed point (exp 0 = 1). -/
theorem evaluateExponential_total_witness :
    evaluateExponential (fun _ => JsVal.num 1) (some [JsVal.num 2, JsVal.num 3]) 0 =
      JsVal.num (2 * 1) :=
  (evaluateExponential_total (fun _ => JsVal.num 1) 0).2.2.2 2 3 1 rfl

end Kinema
